import Mathlib

/-!
Verification development for the Ilom WhatsApp bot core subsystems.

Shallow embedding of:
- the rate limiter (src/src/utils/rateLimiter.js, class RateLimiter),
- the anti-spam engine (src/src/utils/antiSpam.js, class AntiSpam),
- the command dispatcher (src/src/handlers/commandHandler.js, class CommandHandler),
- the priority message queue (src/unnamed/part_002, class MessageQueue).

Timestamps are modelled as Int (JS `Date.now()` millisecond values),
severities as Rat (JS floating-point severities are exact small rationals
in every code path: sums, divisions by small integers).

The shared cache collaborator is modelled per namespace: the cache keys
used by each subsystem live in disjoint string namespaces
("ratelimit_...", "violations_...", "tempban_...", "spam_violations_..."),
so each namespace becomes one total map with the JS `|| []` default made
explicit.  A boolean `cacheFails` argument models "every cache operation
throws" (the collaborator being down); the JS try/catch around each public
entry point then returns the fail-open value.
-/

namespace Ilom

/-- Pointwise update of a string-keyed map, modelling `cache.set key v`. -/
def setMap {α : Type} (f : String → α) (k : String) (v : α) : String → α :=
  fun k2 => if k2 = k then v else f k2

/-- One rate-limit configuration entry, `{ max, window }` in the source. -/
structure Limit where
  max : Nat
  window : Int
deriving Repr, DecidableEq

/-- The `defaultLimits` table of the `RateLimiter` constructor. -/
def defaultLimits (t : String) : Option Limit :=
  if t = "messages" then some ⟨20, 60000⟩
  else if t = "commands" then some ⟨10, 60000⟩
  else if t = "media" then some ⟨5, 300000⟩
  else if t = "api" then some ⟨100, 3600000⟩
  else none

/-- `customLimit || this.defaultLimits[type] || this.defaultLimits.messages`. -/
def resolveLimit (customLimit : Option Limit) (t : String) : Limit :=
  match customLimit with
  | some l => l
  | none => (defaultLimits t).getD ⟨20, 60000⟩

/-- One entry of the `violations_<userId>` list pushed by `recordViolation`. -/
structure RLViolation where
  vtype : String
  timestamp : Int
deriving Repr, DecidableEq

/-- The `tempban_<userId>` record written by `temporaryBan`. -/
structure BanData where
  userId : String
  bannedAt : Int
  duration : Int
  reason : String
deriving Repr, DecidableEq

/-- The cache state visible to the rate limiter, split by key namespace.
`ratelimit` is keyed by the full `ratelimit_<type>_<userId>` string; a
missing key is the empty list (the JS `|| []`). -/
structure RLStore where
  ratelimit : String → List Int
  violations : String → List RLViolation
  tempban : String → Option BanData

def emptyRL : RLStore :=
  { ratelimit := fun _ => [], violations := fun _ => [], tempban := fun _ => none }

def rlKey (t uid : String) : String := "ratelimit_" ++ t ++ "_" ++ uid

def vioKey (uid : String) : String := "violations_" ++ uid

def banKey (uid : String) : String := "tempban_" ++ uid

/-- Result shape of `checkLimit`.  `retryAfter` is `Math.ceil(resetTime/1000)`;
in every reachable return the `resetTime` is nonnegative, where
`Math.ceil` for a nonnegative rational `x/1000` equals `(x + 999) / 1000`
in integer division. -/
structure RLResult where
  allowed : Bool
  remaining : Nat
  resetTime : Int
  retryAfter : Int
deriving Repr, DecidableEq

/-- The catch-clause return value of `checkLimit`:
`{ allowed: true, remaining: 0, resetTime: 0, retryAfter: 0 }`. -/
def failOpenResult : RLResult := ⟨true, 0, 0, 0⟩

/-- `RateLimiter.temporaryBan(userId, duration)`. -/
def temporaryBan (st : RLStore) (userId : String) (now duration : Int) : RLStore :=
  let banData : BanData := ⟨userId, now, duration, "Rate limit violations"⟩
  { st with tempban := setMap st.tempban (banKey userId) (some banData) }

/-- `RateLimiter.recordViolation(userId, type)`: append the violation
(no pruning on write), persist, and temporarily ban at 5 accumulated
violations (duration 3600000 ms). -/
def recordViolation (st : RLStore) (userId vtype : String) (now : Int) : RLStore :=
  let violations := st.violations (vioKey userId) ++ [⟨vtype, now⟩]
  let st1 := { st with violations := setMap st.violations (vioKey userId) violations }
  if 5 ≤ violations.length then temporaryBan st1 userId now 3600000 else st1

/-- `RateLimiter.checkLimit(userId, type, customLimit)`.
Keeps timestamps with `now - timestamp < limit.window`; at or over
`limit.max` records a violation and denies, otherwise appends `now` and
allows.  `cacheFails` models the cache collaborator throwing: the
surrounding try/catch returns `failOpenResult` and no state changes.
In the deny branch `validRequests` is nonempty whenever `limit.max ≥ 1`
(`headI` then matches the JS `validRequests[0]`). -/
def checkLimit (st : RLStore) (cacheFails : Bool) (now : Int)
    (userId vtype : String) (customLimit : Option Limit) : RLResult × RLStore :=
  if cacheFails then (failOpenResult, st)
  else
    let limit := resolveLimit customLimit vtype
    let key := rlKey vtype userId
    let requests := st.ratelimit key
    let validRequests := requests.filter (fun ts => now - ts < limit.window)
    if limit.max ≤ validRequests.length then
      let st1 := recordViolation st userId vtype now
      let resetTime := validRequests.headI + limit.window - now
      (⟨false, 0, resetTime, (resetTime + 999) / 1000⟩, st1)
    else
      let validRequests2 := validRequests ++ [now]
      let st1 := { st with ratelimit := setMap st.ratelimit key validRequests2 }
      (⟨true, limit.max - validRequests2.length,
         validRequests2.headI + limit.window - now, 0⟩, st1)

/-- A sequence of `checkLimit` calls for a fixed subject, category, and
override, at the given call times, threading the store. -/
def runCalls (uid t : String) (lim : Option Limit) : RLStore → List Int → RLStore
  | st, [] => st
  | st, n :: rest => runCalls uid t lim (checkLimit st false n uid t lim).2 rest

/-- Result of one heuristic check (`{isSpam, reason, severity}` or
`{isSpam:false}`); `severity := none` models an absent severity field
(the `indicator.severity || 1` default applies to it). -/
structure IndicatorRes where
  isSpam : Bool
  reason : String := ""
  severity : Option Rat := none
deriving Repr, DecidableEq

/-- One entry of the `spam_violations_<userId>` list. -/
structure SpamViolation where
  timestamp : Int
  indicators : List String
  severity : Rat
deriving Repr, DecidableEq

/-- The cache state visible to the anti-spam engine (violation history
only; the frequency/content histories feed the heuristics, which this
embedding takes as inputs). -/
structure SpamStore where
  spamViolations : String → List SpamViolation

def emptySpam : SpamStore := { spamViolations := fun _ => [] }

def spamVioKey (uid : String) : String := "spam_violations_" ++ uid

/-- A JS value held in the `action` field: either a plain string or a
Promise that will resolve to a string.  `AntiSpam.checkSpam` stores the
un-awaited Promise returned by the async `determineAction`. -/
inductive ActionVal where
  | strV (s : String)
  | promiseV (s : String)
deriving Repr, DecidableEq

/-- JS strict equality `action === s`: a Promise object is never
strictly equal to a string. -/
def strictEq : ActionVal → String → Bool
  | .strV t, s => t == s
  | .promiseV _, _ => false

/-- `Math.min` on exact rationals (kept as a plain conditional so that
terms evaluate by kernel reduction). -/
def ratMin (a b : Rat) : Rat :=
  if a ≤ b then a else b

/-- `AntiSpam.calculateSeverity`: sum of triggered severities (default 1
when the field is absent), capped at 5. -/
def calculateSeverity (indicators : List IndicatorRes) : Rat :=
  ratMin (indicators.foldl (fun sum i => sum + (i.severity.getD 1)) 0) 5

/-- `AntiSpam.recordViolation`: push the violation, then store only the
entries of the trailing hour. -/
def recordSpamViolation (st : SpamStore) (userId : String)
    (indicators : List IndicatorRes) (severity : Rat) (now : Int) : SpamStore :=
  let violations := st.spamViolations (spamVioKey userId) ++
    [⟨now, indicators.map (·.reason), severity⟩]
  let recentViolations := violations.filter (fun v => now - v.timestamp < 3600000)
  { st with spamViolations := setMap st.spamViolations (spamVioKey userId) recentViolations }

/-- `AntiSpam.determineAction(userId, severity)` (the value its Promise
resolves to): trailing-hour count ≥ 5 or average severity > 3 gives
"ban"; count ≥ 3 or current severity > 2 gives "warn"; else "throttle".
With `violationCount = 0` the JS average is `NaN` and both `NaN > 3` and
Lean's `0 / 0 = 0 > 3` are false, so the branching agrees. -/
def determineAction (st : SpamStore) (userId : String) (severity : Rat) (now : Int) : String :=
  let violations := st.spamViolations (spamVioKey userId)
  let recentViolations := violations.filter (fun v => now - v.timestamp < 3600000)
  let violationCount := recentViolations.length
  let avgSeverity := (recentViolations.foldl (fun sum v => sum + v.severity) (0 : Rat)) / (violationCount : Rat)
  if 5 ≤ violationCount ∨ 3 < avgSeverity then "ban"
  else if 3 ≤ violationCount ∨ 2 < severity then "warn"
  else "throttle"

/-- `AntiSpam.calculateWaitTime(severity)`. -/
def calculateWaitTime (severity : Rat) : Rat :=
  ratMin (severity * 5000) 30000

/-- Shape of the object returned by `checkSpam`; absent JS fields are
`none`. -/
structure SpamResult where
  isSpam : Bool
  severity : Option Rat := none
  indicators : Option (List String) := none
  action : Option ActionVal := none
  waitTime : Option Rat := none
  reason : Option String := none
  error : Bool := false
deriving Repr, DecidableEq

/-- `AntiSpam.checkSpam(userId, message, context)`.  The seven heuristic
results are inputs (`checks`); the whitelist and admin exemptions come
first, then the heuristics run (any cache throw is caught into the
fail-open `{isSpam:false, error}` result).  On detection: severity is
combined, the violation recorded, and — exactly as in the source —
`determineAction` is called WITHOUT await, so the `action` field holds
the Promise and the strict comparison `action === 'throttle'` is false. -/
def checkSpam (st : SpamStore) (cacheFails : Bool) (userId : String)
    (whitelisted isGroup isGroupAdmin checkAdmins : Bool)
    (checks : List IndicatorRes) (now : Int) : SpamResult × SpamStore :=
  if whitelisted then ({ isSpam := false, reason := some "whitelisted" }, st)
  else if isGroup && isGroupAdmin && !checkAdmins then
    ({ isSpam := false, reason := some "admin_exempt" }, st)
  else if cacheFails then ({ isSpam := false, error := true }, st)
  else
    let spamIndicators := checks.filter (·.isSpam)
    if spamIndicators.length = 0 then ({ isSpam := false }, st)
    else
      let severity := calculateSeverity spamIndicators
      let st1 := recordSpamViolation st userId spamIndicators severity now
      let action := ActionVal.promiseV (determineAction st1 userId severity now)
      ({ isSpam := true,
         severity := some severity,
         indicators := some (spamIndicators.map (·.reason)),
         action := some action,
         waitTime := some (if strictEq action "throttle" then calculateWaitTime severity else 0) },
       st1)

/-- The user record fields the dispatcher reads. -/
structure UserRec where
  jid : String
  isBanned : Bool
  isPremium : Bool
deriving Repr, DecidableEq

/-- The group record fields the dispatcher reads. -/
structure GroupRec where
  isBanned : Bool
deriving Repr, DecidableEq

/-- A loaded command descriptor (the exported module shape).
`argsFlagFalse` models `command.args === false`; `cooldown`/`minArgs`/
`maxArgs` use `none` for an absent (hence falsy) field, and the value 0
is also falsy in the JS truthiness tests that guard them. -/
structure Command where
  name : String
  category : String
  permissions : List String
  cooldown : Option Nat := none
  argsFlagFalse : Bool := false
  minArgs : Option Nat := none
  maxArgs : Option Nat := none
deriving Repr, DecidableEq

/-- One arm of the `switch (permission)` in `CommandHandler.checkPermissions`:
whether the subject satisfies a single declared tag.  Unknown tags match
nothing (the switch has no default case). -/
def permMatches (ownerNumbers : List String) (user : UserRec) (group : Option GroupRec)
    (isGroupAdmin isBotAdmin : Bool) (perm : String) : Bool :=
  if perm = "owner" then ownerNumbers.contains user.jid
  else if perm = "admin" then ownerNumbers.contains user.jid || isGroupAdmin
  else if perm = "premium" then user.isPremium || ownerNumbers.contains user.jid
  else if perm = "group" then group.isSome
  else if perm = "private" then group.isNone
  else if perm = "botAdmin" then isBotAdmin
  else false

/-- `CommandHandler.checkPermissions`: vacuously true on an empty
requirement list, else the loop returns true on the first matching tag
and false after the loop — i.e. an OR over the declared tags. -/
def checkPermissions (ownerNumbers : List String) (cmd : Command) (user : UserRec)
    (group : Option GroupRec) (isGroupAdmin isBotAdmin : Bool) : Bool :=
  if cmd.permissions.isEmpty then true
  else cmd.permissions.any (permMatches ownerNumbers user group isGroupAdmin isBotAdmin)

/-- Result of `CommandHandler.checkCooldown`: `true`, or
`{ success: false, timeLeft }`. -/
inductive CooldownRes where
  | pass
  | blocked (timeLeft : Int)
deriving Repr, DecidableEq

/-- `CommandHandler.checkCooldown(commandName, userId)` over the
`cooldowns` map keyed `<commandName>_<userId>`.  A command without a
(truthy) cooldown passes without touching the map; a first use records
`now`; within `cooldown * 1000` ms it blocks with
`timeLeft = Math.ceil(remaining / 1000)` (remaining is positive there);
afterwards it records `now` and passes. -/
def checkCooldown (cds : String → Option Int) (cmd? : Option Command)
    (commandName userId : String) (now : Int) : CooldownRes × (String → Option Int) :=
  match cmd? with
  | none => (.pass, cds)
  | some cmd =>
    match cmd.cooldown with
    | none => (.pass, cds)
    | some cd =>
      if cd = 0 then (.pass, cds)
      else
        let key := commandName ++ "_" ++ userId
        match cds key with
        | none => (.pass, setMap cds key (some now))
        | some lastUsed =>
          let timePassed := now - lastUsed
          let cooldownTime : Int := (cd : Int) * 1000
          if timePassed < cooldownTime then
            (.blocked ((cooldownTime - timePassed + 999) / 1000), cds)
          else (.pass, setMap cds key (some now))

/-- `CommandHandler.validateArguments(command, args, ...)` restricted to
the argument count (the failure branches only send usage text). -/
def validateArguments (cmd : Command) (argsLen : Nat) : Bool :=
  if cmd.argsFlagFalse then true
  else if 0 < cmd.minArgs.getD 0 ∧ argsLen < cmd.minArgs.getD 0 then false
  else if 0 < cmd.maxArgs.getD 0 ∧ cmd.maxArgs.getD 0 < argsLen then false
  else true

/-- Which gate of `CommandHandler.handleCommand` fired, or that the
handler ran (`executed`) or threw (`handlerError`). -/
inductive DispatchOutcome where
  | notFound
  | noUser
  | userBanned
  | groupBanned
  | permissionDenied
  | ownerOnly
  | cooldownBlocked (timeLeft : Int)
  | rateLimited
  | spamBlocked
  | invalidArgs
  | executed
  | handlerError
deriving Repr, DecidableEq

/-- Everything `handleCommand` obtains from its collaborators: the
resolved records, admin flags from group metadata, the cache states, the
anti-spam heuristic results for this message, and whether the handler
itself would throw. -/
structure DispatchEnv where
  ownerNumbers : List String
  user : Option UserRec
  group : Option GroupRec
  isGroup : Bool
  sender : String
  isGroupAdmin : Bool
  isBotAdmin : Bool
  cooldowns : String → Option Int
  rlStore : RLStore
  rlCacheFails : Bool
  spamStore : SpamStore
  spamCacheFails : Bool
  spamWhitelisted : Bool
  spamCheckAdmins : Bool
  spamChecks : List IndicatorRes
  argsLen : Nat
  now : Int
  execThrows : Bool

/-- Result of a dispatch: the outcome, the category string handed to
`rateLimiter.checkLimit` when gate 5 was reached (`none` when a gate
before it short-circuited), and the updated collaborator states. -/
structure DispatchResult where
  outcome : DispatchOutcome
  rlCategory : Option String
  cooldowns : String → Option Int
  rlStore : RLStore
  spamStore : SpamStore

/-- `CommandHandler.handleCommand` gate sequence.  Notable source facts
embedded faithfully: gate 5 is `rateLimiter.checkLimit(sender, commandName)`
— the command NAME is passed as the limiter category — and gate 6 is
`antiSpam.checkSpam(sender, message)` with no context argument, so the
destructured `isGroup`/`isGroupAdmin` are undefined (false) there. -/
def handleCommand (cmd? : Option Command) (env : DispatchEnv) : DispatchResult :=
  match cmd? with
  | none => ⟨.notFound, none, env.cooldowns, env.rlStore, env.spamStore⟩
  | some cmd =>
    match env.user with
    | none => ⟨.noUser, none, env.cooldowns, env.rlStore, env.spamStore⟩
    | some user =>
      if user.isBanned then ⟨.userBanned, none, env.cooldowns, env.rlStore, env.spamStore⟩
      else if env.isGroup && (match env.group with | some g => g.isBanned | none => false) then
        ⟨.groupBanned, none, env.cooldowns, env.rlStore, env.spamStore⟩
      else if !(checkPermissions env.ownerNumbers cmd user env.group env.isGroupAdmin env.isBotAdmin) then
        ⟨.permissionDenied, none, env.cooldowns, env.rlStore, env.spamStore⟩
      else if env.isGroup && cmd.category == "owner" && !(env.ownerNumbers.contains env.sender) then
        ⟨.ownerOnly, none, env.cooldowns, env.rlStore, env.spamStore⟩
      else
        match checkCooldown env.cooldowns (some cmd) cmd.name env.sender env.now with
        | (.blocked t, cds) => ⟨.cooldownBlocked t, none, cds, env.rlStore, env.spamStore⟩
        | (.pass, cds) =>
          let rl := checkLimit env.rlStore env.rlCacheFails env.now env.sender cmd.name none
          if !rl.1.allowed then ⟨.rateLimited, some cmd.name, cds, rl.2, env.spamStore⟩
          else
            let sp := checkSpam env.spamStore env.spamCacheFails env.sender
              env.spamWhitelisted false false env.spamCheckAdmins env.spamChecks env.now
            if sp.1.isSpam then ⟨.spamBlocked, some cmd.name, cds, rl.2, sp.2⟩
            else if !(validateArguments cmd env.argsLen) then
              ⟨.invalidArgs, some cmd.name, cds, rl.2, sp.2⟩
            else if env.execThrows then ⟨.handlerError, some cmd.name, cds, rl.2, sp.2⟩
            else ⟨.executed, some cmd.name, cds, rl.2, sp.2⟩

/-- `this.maxConcurrent` of the `MessageQueue` constructor. -/
def maxConcurrent : Nat := 5

/-- One queued message (payload abstracted away; ids as naturals). -/
structure QMessage where
  id : Nat
  priority : Int
  delay : Int
  maxRetries : Nat
  attempts : Nat
  createdAt : Int
  scheduledFor : Int
deriving Repr, DecidableEq

/-- The `queue.sort` comparator: negative priority difference first
(priority descending), then `scheduledFor` ascending; `qle a b` says `a`
may be placed before `b`. -/
def qle (a b : QMessage) : Bool :=
  if a.priority ≠ b.priority then b.priority < a.priority
  else a.scheduledFor ≤ b.scheduledFor

/-- Stable insertion of a message after all entries it does not strictly
precede (equal keys keep the earlier entry first, as ES2019 `sort` is
stable). -/
def insertSorted (x : QMessage) : List QMessage → List QMessage
  | [] => [x]
  | y :: ys => if qle y x then y :: insertSorted x ys else x :: y :: ys

/-- A stable sort by `qle`, modelling `queue.sort(comparator)`. -/
def sortQueue (l : List QMessage) : List QMessage :=
  l.foldl (fun acc x => insertSorted x acc) []

/-- The events this model records of the emitter. -/
inductive QEvent where
  | queuedEv (qn : String) (id : Nat)
  | processingEv (qn : String) (id : Nat) (attempt : Nat)
  | retryEv (qn : String) (id : Nat) (attempt : Nat) (nextAttempt : Int)
  | completedEv (qn : String) (id : Nat) (attempts : Nat)
  | failedEv (qn : String) (id : Nat) (attempts : Nat)
  | removedEv (qn : String) (id : Nat)
  | pausedEv (qn : String)
  | resumedEv (qn : String)
deriving Repr, DecidableEq

/-- State of the `MessageQueue` instance: existing queue names, the
per-queue ordered lists, the per-queue in-flight id sets
(`this.processing`), the paused-queue set (`this.delays`), and the
emitted event trace. -/
structure MQState where
  queues : List String
  queueOf : String → List QMessage
  processingOf : String → List Nat
  delays : List String
  events : List QEvent

def initMQ : MQState :=
  { queues := [], queueOf := fun _ => [], processingOf := fun _ => [],
    delays := [], events := [] }

/-- `Set.add` on the in-flight id set: appends unless present. -/
def insertId (p : List Nat) (x : Nat) : List Nat :=
  if x ∈ p then p else p ++ [x]

/-- The synchronous start of `processMessage`: `message.attempts++` on
the queue entry (the dispatched object aliases it). -/
def bumpAttempts (l : List QMessage) (id : Nat) : List QMessage :=
  l.map (fun m => if m.id = id then { m with attempts := m.attempts + 1 } else m)

/-- Dispatch loop body of `processQueue`: for each chosen message, add
its id to the in-flight set and start `processMessage` (attempt counter
increment plus the `message:processing` event); execution completion is
asynchronous and arrives as a separate `handleSuccess`/`handleFailure`. -/
def dispatchAll (st : MQState) (qn : String) : List QMessage → MQState
  | [] => st
  | m :: ms =>
    let st1 : MQState :=
      { st with processingOf := setMap st.processingOf qn (insertId (st.processingOf qn) m.id),
                queueOf := setMap st.queueOf qn (bumpAttempts (st.queueOf qn) m.id),
                events := st.events ++ [.processingEv qn m.id (m.attempts + 1)] }
    dispatchAll st1 qn ms

/-- `MessageQueue.processQueue(queueName)`: no-op for an unknown queue or
a full in-flight set; otherwise dispatches the ready messages
(`scheduledFor ≤ now`, not already in flight), at most
`maxConcurrent - processing.size` of them, in queue (sorted) order.
Note that the paused flag (`this.delays`) is NOT consulted here. -/
def processQueue (st : MQState) (qn : String) (now : Int) : MQState :=
  if qn ∈ st.queues then
    let q := st.queueOf qn
    let p := st.processingOf qn
    if maxConcurrent ≤ p.length then st
    else
      let ready := q.filter (fun m => m.scheduledFor ≤ now && decide (m.id ∉ p))
      dispatchAll st qn (ready.take (maxConcurrent - p.length))
  else st

/-- Options of `addMessage` (`priority = 0`, `delay = this.defaultDelay`,
`maxRetries = this.maxRetries` being the JS defaults). -/
structure AddOpts where
  priority : Int := 0
  delay : Int := 1000
  maxRetries : Nat := 3
  id : Nat
deriving Repr, DecidableEq

/-- `MessageQueue.addMessage(queueName, message, options)`: create the
queue on first use, push the new entry (attempts 0,
`scheduledFor = now + delay`), re-sort stably, emit `message:queued`,
and trigger an immediate synchronous drain attempt. -/
def addMessage (st : MQState) (qn : String) (o : AddOpts) (now : Int) : MQState :=
  let st0 := if qn ∈ st.queues then st else { st with queues := qn :: st.queues }
  let m : QMessage :=
    { id := o.id, priority := o.priority, delay := o.delay, maxRetries := o.maxRetries,
      attempts := 0, createdAt := now, scheduledFor := now + o.delay }
  let st1 :=
    { st0 with queueOf := setMap st0.queueOf qn (sortQueue (st0.queueOf qn ++ [m])),
               events := st0.events ++ [.queuedEv qn o.id] }
  processQueue st1 qn now

/-- `MessageQueue.handleSuccess`: splice the entry out, delete the id
from the in-flight set, emit `message:completed` (attempt count read
from the message object). -/
def handleSuccess (st : MQState) (qn : String) (id : Nat) : MQState :=
  let q := st.queueOf qn
  let attempts := ((q.find? (fun m => m.id = id)).map (·.attempts)).getD 0
  { st with queueOf := setMap st.queueOf qn (q.eraseP (fun m => m.id == id)),
            processingOf := setMap st.processingOf qn ((st.processingOf qn).filter (· ≠ id)),
            events := st.events ++ [.completedEv qn id attempts] }

/-- `MessageQueue.handleFailure` on the in-flight message object `msg`:
delete the id from the in-flight set; below the retry bound, reschedule
the entry to `now + delay * 2^(attempts - 1)`, re-sort, emit
`message:retry`; at the bound, splice the entry out and emit
`message:failed` once.  (`attempts ≥ 1` always holds here, the counter
having been incremented at dispatch.) -/
def handleFailure (st : MQState) (qn : String) (msg : QMessage) (now : Int) : MQState :=
  let p2 := (st.processingOf qn).filter (· ≠ msg.id)
  let q := st.queueOf qn
  if msg.attempts < msg.maxRetries then
    let newSched := now + msg.delay * ((2 : Int) ^ (msg.attempts - 1))
    let q2 := sortQueue (q.map (fun m => if m.id = msg.id then { m with scheduledFor := newSched } else m))
    { st with queueOf := setMap st.queueOf qn q2,
              processingOf := setMap st.processingOf qn p2,
              events := st.events ++ [.retryEv qn msg.id msg.attempts newSched] }
  else
    { st with queueOf := setMap st.queueOf qn (q.eraseP (fun m => m.id == msg.id)),
              processingOf := setMap st.processingOf qn p2,
              events := st.events ++ [.failedEv qn msg.id msg.attempts] }

/-- Completion-with-failure of the in-flight message with the given id
(the execute hook reported an error): look up the aliased queue entry
and run `handleFailure` on it. -/
def applyFailure (st : MQState) (qn : String) (id : Nat) (now : Int) : MQState :=
  match (st.queueOf qn).find? (fun m => m.id = id) with
  | some m => handleFailure st qn m now
  | none => st

/-- `MessageQueue.pauseQueue`. -/
def pauseQueue (st : MQState) (qn : String) : MQState :=
  { st with delays := if qn ∈ st.delays then st.delays else st.delays ++ [qn],
            events := st.events ++ [.pausedEv qn] }

/-- `MessageQueue.resumeQueue`: drop the flag and re-trigger draining. -/
def resumeQueue (st : MQState) (qn : String) (now : Int) : MQState :=
  let st1 := { st with delays := st.delays.filter (· ≠ qn),
                       events := st.events ++ [.resumedEv qn] }
  processQueue st1 qn now

/-- `MessageQueue.removeMessage`. -/
def removeMessage (st : MQState) (qn : String) (id : Nat) : MQState :=
  if (st.queueOf qn).any (fun m => m.id = id) then
    { st with queueOf := setMap st.queueOf qn ((st.queueOf qn).eraseP (fun m => m.id == id)),
              events := st.events ++ [.removedEv qn id] }
  else st

/-- `MessageQueue.clearQueue`. -/
def clearQueue (st : MQState) (qn : String) : MQState :=
  if qn ∈ st.queues then { st with queueOf := setMap st.queueOf qn [] } else st

/-- `MessageQueue.restoreQueue(queueName)`: the cache collaborator's
`queue_<queueName>` entry is an input (`saved`; `none` is a cache miss,
and a stored empty array is truthy in JS, hence `some []` still
restores).  When present, the named queue's list is replaced wholesale
(`this.queues.set` also creates the key), its in-flight set is RESET TO
EMPTY (`this.processing.set(queueName, new Set())`), and a drain is
triggered; on a miss nothing changes.  The returned length is not
modelled. -/
def restoreQueue (st : MQState) (qn : String) (saved : Option (List QMessage))
    (now : Int) : MQState :=
  match saved with
  | some savedQueue =>
    let st1 := { st with
      queues := if qn ∈ st.queues then st.queues else qn :: st.queues,
      queueOf := setMap st.queueOf qn savedQueue,
      processingOf := setMap st.processingOf qn [] }
    processQueue st1 qn now
  | none => st

/-- The state-changing transitions the event loop can fire at the queue
instance: the public mutating calls and the asynchronous execution
completions.  `restore` carries the cache value its read returns.  The
remaining public surface does not mutate the instance state and needs no
transition of its own: `scheduleMessage`, `scheduleRecurring`,
`createPriorityMessage`, `createDelayedMessage` and `bulkAdd` reduce to
`addMessage`; `persistQueue` only writes the cache; `drain` (the wait),
`getQueueStatus`, `getAllQueues`, `getStats` and `generateQueueReport`
only read; `setupHealthCheck` re-triggers `processQueue` (the `drain`
transition). -/
inductive MQOp where
  | add (qn : String) (o : AddOpts) (now : Int)
  | drain (qn : String) (now : Int)
  | succeed (qn : String) (id : Nat)
  | fail (qn : String) (id : Nat) (now : Int)
  | remove (qn : String) (id : Nat)
  | clear (qn : String)
  | pause (qn : String)
  | resume (qn : String) (now : Int)
  | restore (qn : String) (saved : Option (List QMessage)) (now : Int)

def applyOp (st : MQState) : MQOp → MQState
  | .add qn o now => addMessage st qn o now
  | .drain qn now => processQueue st qn now
  | .succeed qn id => handleSuccess st qn id
  | .fail qn id now => applyFailure st qn id now
  | .remove qn id => removeMessage st qn id
  | .clear qn => clearQueue st qn
  | .pause qn => pauseQueue st qn
  | .resume qn now => resumeQueue st qn now
  | .restore qn saved now => restoreQueue st qn saved now

/-- A reachable state: some operation sequence applied to the initial
state. -/
def runOps (ops : List MQOp) : MQState :=
  ops.foldl applyOp initMQ

/-- Event-loop driver for a message whose execution always fails: each
round, the retry timer fires (`processQueue` at the entry's scheduled
time), the execute hook reports failure immediately, and `handleFailure`
runs; the loop ends when the entry has left the queue. -/
def failingDriver (qn : String) (id : Nat) : MQState → Nat → MQState
  | st, 0 => st
  | st, fuel + 1 =>
    match (st.queueOf qn).find? (fun m => m.id = id) with
    | none => st
    | some m =>
      failingDriver qn id (applyFailure (processQueue st qn m.scheduledFor) qn id m.scheduledFor) fuel

/-- The event trail `handleFailure` produces for an always-failing
message from attempt `k + 1` on, when its current scheduled time is `s`:
each attempt below the retry bound adds a `processing` and a `retry`
event (next attempt at `s + d * 2 ^ k`), the final attempt adds a
`processing` and the single `failed` event. -/
def failTrail (qn : String) (id : Nat) (d : Int) (R : Nat) (k : Nat) (s : Int) : List QEvent :=
  if k + 1 < R then
    .processingEv qn id (k + 1) :: .retryEv qn id (k + 1) (s + d * (2 : Int) ^ k) ::
      failTrail qn id d R (k + 1) (s + d * (2 : Int) ^ k)
  else
    [.processingEv qn id (k + 1), .failedEv qn id (k + 1)]
  termination_by R - k
  decreasing_by omega

/-- Time of attempt `n` (1-based) for initial schedule `s` and base
delay `d`: the backoffs `d, 2d, 4d, ...` summed give
`s + d * (2 ^ (n-1) - 1)`. -/
def attemptTime (s d : Int) (n : Nat) : Int :=
  s + d * ((2 : Int) ^ (n - 1) - 1)

/-- The delay the queue schedules before attempt `n`: the enqueue delay
before the first attempt, `delay * 2 ^ (n - 2)` before attempt `n ≥ 2`. -/
def backoffBefore (d : Int) (n : Nat) : Int :=
  if n ≤ 1 then d else d * (2 : Int) ^ (n - 2)

/-- The in-window sublist `checkLimit` works on. -/
def validReqs (st : RLStore) (now : Int) (uid t : String) (cl : Option Limit) : List Int :=
  (st.ratelimit (rlKey t uid)).filter (fun ts => now - ts < (resolveLimit cl t).window)

/-- A plain command named "ping" with no permission requirements. -/
def pingCmd : Command :=
  { name := "ping", category := "general", permissions := [] }

/-- A command requiring `[owner, admin]`. -/
def kickCmd : Command :=
  { name := "kick", category := "admin", permissions := ["owner", "admin"] }

/-- A private-chat environment with empty collaborator state. -/
def baseEnv : DispatchEnv :=
  { ownerNumbers := [], user := some ⟨"u", false, false⟩, group := none,
    isGroup := false, sender := "u", isGroupAdmin := false, isBotAdmin := false,
    cooldowns := fun _ => none, rlStore := emptyRL, rlCacheFails := false,
    spamStore := emptySpam, spamCacheFails := false, spamWhitelisted := false,
    spamCheckAdmins := false, spamChecks := [], argsLen := 0, now := 0,
    execThrows := false }

/-- A group-chat environment where the sender is a group admin but not an
owner, with empty collaborator state. -/
def groupAdminEnv : DispatchEnv :=
  { baseEnv with isGroup := true, group := some ⟨false⟩, isGroupAdmin := true }

/-- A group-chat environment where the sender holds no tag at all. -/
def groupPlainEnv : DispatchEnv :=
  { baseEnv with isGroup := true, group := some ⟨false⟩, isGroupAdmin := false }

/-- Predicate for `message:processing` events. -/
def isProcEv : QEvent → Bool
  | .processingEv _ _ _ => true
  | _ => false

/-- Predicate for `message:failed` events. -/
def isFailedEv : QEvent → Bool
  | .failedEv _ _ _ => true
  | _ => false

/-- The full lifecycle of a message enqueued at `now` with options
`{priority := pr, delay := d, maxRetries := R, id}` whose execution
always fails: enqueue, then the retry timers fire until the entry leaves
the queue.  `R + 1` rounds always suffice. -/
def failingRun (qn : String) (id : Nat) (pr d now : Int) (R : Nat) : MQState :=
  failingDriver qn id (addMessage initMQ qn ⟨pr, d, R, id⟩ now) (R + 1)

/-- A state with a single in-flight message on queue "q". -/
def oneInflight : MQState :=
  { initMQ with queues := ["q"], processingOf := setMap initMQ.processingOf "q" [1] }

/-! ## Theorems and supporting lemmas -/

theorem setMap_same {α : Type} (f : String → α) (k : String) (v : α) :
    setMap f k v k = v := by
  simp [setMap]

theorem setMap_other {α : Type} (f : String → α) (k k2 : String) (v : α)
    (h : k2 ≠ k) : setMap f k v k2 = f k2 := by
  simp [setMap, h]

theorem setMap_setMap {α : Type} (f : String → α) (k : String) (v w : α) :
    setMap (setMap f k v) k w = setMap f k w := by
  funext k2
  unfold setMap
  split <;> rfl

lemma recordViolation_ratelimit (st : RLStore) (u t : String) (n : Int) :
    (recordViolation st u t n).ratelimit = st.ratelimit := by
  simp only [recordViolation, temporaryBan]
  split <;> rfl

lemma recordViolation_violations_self (st : RLStore) (u t : String) (n : Int) :
    (recordViolation st u t n).violations (vioKey u) =
      st.violations (vioKey u) ++ [⟨t, n⟩] := by
  simp only [recordViolation, temporaryBan]
  split <;> simp [setMap]

lemma recordViolation_violations_other (st : RLStore) (u t : String) (n : Int)
    (k : String) (hk : k ≠ vioKey u) :
    (recordViolation st u t n).violations k = st.violations k := by
  simp only [recordViolation, temporaryBan]
  split <;> simp [setMap, hk]

lemma recordViolation_tempban_other (st : RLStore) (u t : String) (n : Int)
    (k : String) (hk : k ≠ banKey u) :
    (recordViolation st u t n).tempban k = st.tempban k := by
  simp only [recordViolation, temporaryBan]
  split <;> simp [setMap, hk]

lemma checkLimit_deny_eq (st : RLStore) (now : Int) (uid t : String) (cl : Option Limit)
    (hc : (resolveLimit cl t).max ≤ (validReqs st now uid t cl).length) :
    checkLimit st false now uid t cl =
      (⟨false, 0, (validReqs st now uid t cl).headI + (resolveLimit cl t).window - now,
        ((validReqs st now uid t cl).headI + (resolveLimit cl t).window - now + 999) / 1000⟩,
       recordViolation st uid t now) := by
  unfold validReqs at hc ⊢
  unfold checkLimit
  simp only [Bool.false_eq_true, if_false, hc, if_true, reduceIte]

lemma checkLimit_allow_eq (st : RLStore) (now : Int) (uid t : String) (cl : Option Limit)
    (hc : (validReqs st now uid t cl).length < (resolveLimit cl t).max) :
    checkLimit st false now uid t cl =
      (⟨true, (resolveLimit cl t).max - ((validReqs st now uid t cl) ++ [now]).length,
        ((validReqs st now uid t cl) ++ [now]).headI + (resolveLimit cl t).window - now, 0⟩,
       { st with ratelimit := setMap st.ratelimit (rlKey t uid) ((validReqs st now uid t cl) ++ [now]) }) := by
  unfold validReqs at hc ⊢
  unfold checkLimit
  simp only [Bool.false_eq_true, if_false, not_le.mpr hc, reduceIte]

lemma length_filter_lt_of_mem {α : Type} (p : α → Bool) {l : List α} {a : α}
    (ha : a ∈ l) (hpa : p a = false) : (l.filter p).length < l.length := by
  induction l with
  | nil => cases ha
  | cons b bs ih =>
    rcases List.mem_cons.mp ha with h | h
    · subst h
      simp only [List.filter_cons, hpa, Bool.false_eq_true, if_false]
      exact Nat.lt_succ_of_le (List.length_filter_le p bs)
    · simp only [List.filter_cons]
      split
      · simpa using Nat.succ_lt_succ (ih h)
      · exact Nat.lt_succ_of_lt (ih h)

/-- Every call of a time sequence that fits entirely inside one window
and within the configured maximum is accepted, and the stored list ends
as the full sequence. -/
lemma runCalls_fill (uid t : String) (lim : Limit) (lo : Int) :
    ∀ (rs acc : List Int) (st : RLStore),
      st.ratelimit (rlKey t uid) = acc →
      (∀ x ∈ acc ++ rs, lo ≤ x ∧ x - lo < lim.window) →
      acc.length + rs.length ≤ lim.max →
      (runCalls uid t (some lim) st rs).ratelimit (rlKey t uid) = acc ++ rs := by
  intro rs
  induction rs with
  | nil =>
    intro acc st hst _ _
    simpa [runCalls] using hst
  | cons r rs ih =>
    intro acc st hst hmem hlen
    have hr : lo ≤ r ∧ r - lo < lim.window := hmem r (by simp)
    have hfilter : validReqs st r uid t (some lim) = acc := by
      unfold validReqs
      rw [hst]
      refine List.filter_eq_self.mpr ?_
      intro x hx
      have hxb := hmem x (by simp [hx])
      have : r - x < lim.window := by omega
      simpa [resolveLimit] using this
    have hlt : (validReqs st r uid t (some lim)).length < (resolveLimit (some lim) t).max := by
      rw [hfilter]
      show acc.length < lim.max
      simp only [List.length_cons] at hlen
      omega
    have step := checkLimit_allow_eq st r uid t (some lim) hlt
    show (runCalls uid t (some lim) (checkLimit st false r uid t (some lim)).2 rs).ratelimit
        (rlKey t uid) = acc ++ r :: rs
    rw [step]
    have := ih (acc ++ [r])
      { st with ratelimit := setMap st.ratelimit (rlKey t uid) ((validReqs st r uid t (some lim)) ++ [r]) }
      (by simp [setMap, hfilter])
      (by
        intro x hx
        apply hmem
        simp only [List.mem_append, List.mem_cons, List.mem_singleton] at hx ⊢
        tauto)
      (by simp only [List.length_append, List.length_cons, List.length_nil] at hlen ⊢; omega)
    simpa using this

/-- C1: for every message classified as spam, `checkSpam` is specified to
carry `action` per `determineAction` and, for `throttle`,
`waitTime = min(severity * 5000, 30000)`.  The code calls the async
`determineAction` without `await`, so the returned `action` field holds a
Promise and the strict comparison `action === 'throttle'` is always
false: the returned `waitTime` is 0 in every case.  At the concrete
failing input (first-time offender, one `suspicious_pattern` indicator
of severity 3/2) the resolved action is `throttle` and the specified
wait time is 7500 ms, but the code returns `waitTime = 0` with a Promise
in the `action` field. -/
lemma checkSpam_detected_eq (st : SpamStore) (uid : String) (ca : Bool)
    (checks : List IndicatorRes) (now : Int)
    (h : ¬ (checks.filter (·.isSpam)).length = 0) :
    checkSpam st false uid false false false ca checks now =
      ({ isSpam := true,
         severity := some (calculateSeverity (checks.filter (·.isSpam))),
         indicators := some ((checks.filter (·.isSpam)).map (·.reason)),
         action := some (.promiseV (determineAction
           (recordSpamViolation st uid (checks.filter (·.isSpam))
             (calculateSeverity (checks.filter (·.isSpam))) now)
           uid (calculateSeverity (checks.filter (·.isSpam))) now)),
         waitTime := some 0 },
       recordSpamViolation st uid (checks.filter (·.isSpam))
         (calculateSeverity (checks.filter (·.isSpam))) now) := by
  unfold checkSpam
  simp [h, strictEq]

theorem checkSpam_waitTime_always_zero :
    (∀ (st : SpamStore) (cf : Bool) (uid : String) (wl g ga ca : Bool)
        (checks : List IndicatorRes) (now : Int),
        ((checkSpam st cf uid wl g ga ca checks now).1.waitTime).getD 0 = 0) ∧
    (checkSpam emptySpam false "u" false false false false
        [⟨true, "suspicious_pattern", some (3/2)⟩] 0).1.waitTime = some 0 ∧
    (checkSpam emptySpam false "u" false false false false
        [⟨true, "suspicious_pattern", some (3/2)⟩] 0).1.action =
      some (ActionVal.promiseV "throttle") ∧
    determineAction
      (recordSpamViolation emptySpam "u" [⟨true, "suspicious_pattern", some (3/2)⟩] (3/2) 0)
      "u" (3/2) 0 = "throttle" ∧
    calculateWaitTime (3/2) = 7500 := by
  have hfil : ([⟨true, "suspicious_pattern", some (3/2)⟩] : List IndicatorRes).filter (·.isSpam)
      = [⟨true, "suspicious_pattern", some (3/2)⟩] := rfl
  have hsev : calculateSeverity [⟨true, "suspicious_pattern", some (3/2)⟩] = 3/2 := by
    norm_num [calculateSeverity, ratMin]
  have hact : determineAction (recordSpamViolation emptySpam "u"
      [⟨true, "suspicious_pattern", some (3/2)⟩] (3/2) 0) "u" (3/2) 0 = "throttle" := by
    norm_num [determineAction, recordSpamViolation, setMap, emptySpam]
  have heq := checkSpam_detected_eq emptySpam "u" false
      [⟨true, "suspicious_pattern", some (3/2)⟩] 0 (by decide)
  rw [hfil, hsev] at heq
  refine ⟨?_, ?_, ?_, hact, by norm_num [calculateWaitTime, ratMin]⟩
  · intro st cf uid wl g ga ca checks now
    unfold checkSpam
    repeat' split <;> simp_all [strictEq]
  · rw [heq]
  · rw [heq]
    simp [hact]

/-- C8: with the cache collaborator throwing (`cacheFails = true`),
`checkLimit` fails open — it returns `allowed = true` and leaves the
store untouched — and `checkSpam` returns `isSpam = false`, for every
subject and input. -/
theorem cache_failure_fail_open (st : RLStore) (sst : SpamStore) (now : Int)
    (uid t : String) (cl : Option Limit) (wl g ga ca : Bool)
    (checks : List IndicatorRes) :
    (checkLimit st true now uid t cl).1.allowed = true ∧
    (checkLimit st true now uid t cl).2 = st ∧
    (checkSpam sst true uid wl g ga ca checks now).1.isSpam = false := by
  refine ⟨rfl, rfl, ?_⟩
  cases wl <;> cases g <;> cases ga <;> cases ca <;> rfl

/-- C10: whenever `checkLimit` denies a request, the stored timestamp
list of every `(subject, category)` key is left unwritten — a denied
request consumes no quota — and the only state changes are the appended
violation record under the subject's violations key and (possibly) the
temporary ban under the subject's ban key. -/
theorem checkLimit_deny_frame (st : RLStore) (now : Int) (uid t : String)
    (cl : Option Limit)
    (h : (checkLimit st false now uid t cl).1.allowed = false) :
    (checkLimit st false now uid t cl).2.ratelimit = st.ratelimit ∧
    (checkLimit st false now uid t cl).2.violations (vioKey uid) =
      st.violations (vioKey uid) ++ [⟨t, now⟩] ∧
    (∀ k, k ≠ vioKey uid →
      (checkLimit st false now uid t cl).2.violations k = st.violations k) ∧
    (∀ k, k ≠ banKey uid →
      (checkLimit st false now uid t cl).2.tempban k = st.tempban k) := by
  by_cases hc : (resolveLimit cl t).max ≤ (validReqs st now uid t cl).length
  · rw [checkLimit_deny_eq st now uid t cl hc]
    exact ⟨recordViolation_ratelimit st uid t now,
      recordViolation_violations_self st uid t now,
      fun k hk => recordViolation_violations_other st uid t now k hk,
      fun k hk => recordViolation_tempban_other st uid t now k hk⟩
  · rw [checkLimit_allow_eq st now uid t cl (not_le.mp hc)] at h
    simp at h

/-- Witness for C10: a store holding one in-window timestamp against a
max-1 limit denies the next request, and the frame property holds there. -/
theorem checkLimit_deny_frame_witness :
    (checkLimit { emptyRL with ratelimit := setMap emptyRL.ratelimit (rlKey "c" "u") [0] }
        false 0 "u" "c" (some ⟨1, 10⟩)).1.allowed = false ∧
    ((checkLimit { emptyRL with ratelimit := setMap emptyRL.ratelimit (rlKey "c" "u") [0] }
        false 0 "u" "c" (some ⟨1, 10⟩)).2.ratelimit =
      ({ emptyRL with ratelimit := setMap emptyRL.ratelimit (rlKey "c" "u") [0] } : RLStore).ratelimit ∧
     (checkLimit { emptyRL with ratelimit := setMap emptyRL.ratelimit (rlKey "c" "u") [0] }
        false 0 "u" "c" (some ⟨1, 10⟩)).2.violations (vioKey "u") =
      ({ emptyRL with ratelimit := setMap emptyRL.ratelimit (rlKey "c" "u") [0] } : RLStore).violations (vioKey "u") ++ [⟨"c", 0⟩] ∧
     (∀ k, k ≠ vioKey "u" →
       (checkLimit { emptyRL with ratelimit := setMap emptyRL.ratelimit (rlKey "c" "u") [0] }
          false 0 "u" "c" (some ⟨1, 10⟩)).2.violations k =
        ({ emptyRL with ratelimit := setMap emptyRL.ratelimit (rlKey "c" "u") [0] } : RLStore).violations k) ∧
     (∀ k, k ≠ banKey "u" →
       (checkLimit { emptyRL with ratelimit := setMap emptyRL.ratelimit (rlKey "c" "u") [0] }
          false 0 "u" "c" (some ⟨1, 10⟩)).2.tempban k =
        ({ emptyRL with ratelimit := setMap emptyRL.ratelimit (rlKey "c" "u") [0] } : RLStore).tempban k)) := by
  have hallowed :
      (checkLimit { emptyRL with ratelimit := setMap emptyRL.ratelimit (rlKey "c" "u") [0] }
        false 0 "u" "c" (some ⟨1, 10⟩)).1.allowed = false := by decide
  have hconj := checkLimit_deny_frame
    { emptyRL with ratelimit := setMap emptyRL.ratelimit (rlKey "c" "u") [0] }
    0 "u" "c" (some ⟨1, 10⟩) hallowed
  exact ⟨hallowed, hconj.1, hconj.2.1, hconj.2.2.1, hconj.2.2.2⟩

/-- C2: with limit `{max, window}`, after `max` accepted requests inside
one window (all within `window` of the first request `lo`), the next
call still inside the window of every stored entry is denied with
`remaining = 0`, and once `window` has elapsed since `lo` a subsequent
call is allowed again. -/
theorem sliding_window_correct (uid t : String) (mx : Nat) (w lo tdeny taccept : Int)
    (ts : List Int)
    (hmx : 1 ≤ mx) (hlen : ts.length = mx) (hlo : lo ∈ ts)
    (hmem : ∀ x ∈ ts, lo ≤ x ∧ x - lo < w)
    (hdeny : lo ≤ tdeny ∧ tdeny - lo < w)
    (haccept : w ≤ taccept - lo) :
    (runCalls uid t (some ⟨mx, w⟩) emptyRL ts).ratelimit (rlKey t uid) = ts ∧
    (checkLimit (runCalls uid t (some ⟨mx, w⟩) emptyRL ts) false tdeny uid t
      (some ⟨mx, w⟩)).1.allowed = false ∧
    (checkLimit (runCalls uid t (some ⟨mx, w⟩) emptyRL ts) false tdeny uid t
      (some ⟨mx, w⟩)).1.remaining = 0 ∧
    (checkLimit (checkLimit (runCalls uid t (some ⟨mx, w⟩) emptyRL ts) false tdeny uid t
        (some ⟨mx, w⟩)).2 false taccept uid t (some ⟨mx, w⟩)).1.allowed = true := by
  have hfill := runCalls_fill uid t ⟨mx, w⟩ lo ts [] emptyRL rfl
    (by simpa using hmem) (by simp [hlen])
  simp only [List.nil_append] at hfill
  have hfd : validReqs (runCalls uid t (some ⟨mx, w⟩) emptyRL ts) tdeny uid t
      (some ⟨mx, w⟩) = ts := by
    unfold validReqs
    rw [hfill]
    refine List.filter_eq_self.mpr ?_
    intro x hx
    have hxb := hmem x hx
    have h2 : tdeny - x < w := by omega
    simpa [resolveLimit] using h2
  have hcd : (resolveLimit (some ⟨mx, w⟩) t).max ≤
      (validReqs (runCalls uid t (some ⟨mx, w⟩) emptyRL ts) tdeny uid t
        (some ⟨mx, w⟩)).length := by
    rw [hfd]
    show mx ≤ ts.length
    omega
  have hdenyEq := checkLimit_deny_eq _ tdeny uid t _ hcd
  refine ⟨hfill, ?_, ?_, ?_⟩
  · rw [hdenyEq]
  · rw [hdenyEq]
  · rw [hdenyEq]
    have hrt := recordViolation_ratelimit (runCalls uid t (some ⟨mx, w⟩) emptyRL ts) uid t tdeny
    have hlt2 : (validReqs (recordViolation (runCalls uid t (some ⟨mx, w⟩) emptyRL ts) uid t tdeny)
        taccept uid t (some ⟨mx, w⟩)).length < (resolveLimit (some ⟨mx, w⟩) t).max := by
      unfold validReqs
      rw [hrt, hfill]
      show (ts.filter _).length < mx
      rw [← hlen]
      apply length_filter_lt_of_mem _ hlo
      have h3 : ¬ (taccept - lo < w) := by omega
      simpa [resolveLimit] using h3
    rw [checkLimit_allow_eq _ taccept uid t _ hlt2]

/-- Witness for C2 at limit 2 per 10 ms, accepted calls at 0 and 1, a
denied call at 5 and an accepted call at 10. -/
theorem sliding_window_correct_witness :
    ((1 : Nat) ≤ 2 ∧ ([(0 : Int), 1]).length = 2 ∧ (0 : Int) ∈ [(0 : Int), 1] ∧
      (∀ x ∈ [(0 : Int), 1], (0 : Int) ≤ x ∧ x - 0 < 10) ∧
      ((0 : Int) ≤ 5 ∧ (5 : Int) - 0 < 10) ∧ (10 : Int) ≤ 10 - 0) ∧
    ((runCalls "u" "c" (some ⟨2, 10⟩) emptyRL [0, 1]).ratelimit (rlKey "c" "u") = [0, 1] ∧
     (checkLimit (runCalls "u" "c" (some ⟨2, 10⟩) emptyRL [0, 1]) false 5 "u" "c"
       (some ⟨2, 10⟩)).1.allowed = false ∧
     (checkLimit (runCalls "u" "c" (some ⟨2, 10⟩) emptyRL [0, 1]) false 5 "u" "c"
       (some ⟨2, 10⟩)).1.remaining = 0 ∧
     (checkLimit (checkLimit (runCalls "u" "c" (some ⟨2, 10⟩) emptyRL [0, 1]) false 5 "u" "c"
         (some ⟨2, 10⟩)).2 false 10 "u" "c" (some ⟨2, 10⟩)).1.allowed = true) :=
  ⟨⟨by decide, by decide, by decide, by decide, by decide, by decide⟩,
   sliding_window_correct "u" "c" 2 10 0 5 10 [0, 1]
     (by decide) (by decide) (by decide) (by decide) (by decide) (by decide)⟩

/-- C3 counterexample: a command named "ping" reaches gate 5 (it is even
executed), and the category handed to the rate limiter is "ping", not
"commands". -/
theorem rate_limit_category_not_commands :
    (handleCommand (some pingCmd) baseEnv).rlCategory = some "ping" ∧
    some "ping" ≠ some "commands" ∧
    (handleCommand (some pingCmd) baseEnv).outcome = DispatchOutcome.executed := by
  refine ⟨by decide, by decide, by decide⟩

lemma handleCommand_rlCategory (cmd : Command) (env : DispatchEnv) :
    (handleCommand (some cmd) env).rlCategory = none ∨
    (handleCommand (some cmd) env).rlCategory = some cmd.name := by
  unfold handleCommand
  repeat' split
  all_goals simp_all [apply_ite DispatchResult.rlCategory, ite_self]

/-- C3 amended: whenever an inbound command reaches gate 5, the rate
limiter is called with the invoked command's name as category; a
command name outside the four configured categories resolves to the
default messages limit of 20 per 60000 ms. -/
theorem rate_limit_category_is_command_name (cmd : Command) (env : DispatchEnv)
    (cat : String)
    (h : (handleCommand (some cmd) env).rlCategory = some cat) :
    cat = cmd.name ∧
    (∀ s : String, s ≠ "messages" → s ≠ "commands" → s ≠ "media" → s ≠ "api" →
      resolveLimit none s = ⟨20, 60000⟩) := by
  constructor
  · rcases handleCommand_rlCategory cmd env with h0 | h0 <;> rw [h0] at h
    · cases h
    · exact (Option.some.inj h).symm
  · intro s h1 h2 h3 h4
    simp [resolveLimit, defaultLimits, h1, h2, h3, h4]

/-- Witness for C3's amended statement at the "ping" command. -/
theorem rate_limit_category_is_command_name_witness :
    (handleCommand (some pingCmd) baseEnv).rlCategory = some "ping" ∧
    ("ping" = pingCmd.name ∧
     (∀ s : String, s ≠ "messages" → s ≠ "commands" → s ≠ "media" → s ≠ "api" →
       resolveLimit none s = ⟨20, 60000⟩)) :=
  ⟨by decide, rate_limit_category_is_command_name pingCmd baseEnv "ping" (by decide)⟩

/-- C6: the permission gate passes iff the subject satisfies at least
one declared tag (OR semantics); a command requiring `[owner, admin]`
executes for a subject who is only a group admin (all later gates
passing), and is denied — the handler is not invoked — for a subject
holding neither tag. -/
theorem permission_or_semantics :
    (∀ (owners : List String) (cmd : Command) (user : UserRec)
        (group : Option GroupRec) (ga ba : Bool),
        cmd.permissions ≠ [] →
        (checkPermissions owners cmd user group ga ba = true ↔
          ∃ p ∈ cmd.permissions, permMatches owners user group ga ba p = true)) ∧
    (∀ (cmd : Command) (env : DispatchEnv) (user : UserRec) (g : GroupRec),
        env.user = some user → user.isBanned = false →
        env.group = some g → g.isBanned = false →
        cmd.permissions = ["owner", "admin"] →
        env.isGroupAdmin = true →
        cmd.category ≠ "owner" →
        (checkCooldown env.cooldowns (some cmd) cmd.name env.sender env.now).1 = .pass →
        (checkLimit env.rlStore env.rlCacheFails env.now env.sender cmd.name none).1.allowed = true →
        (checkSpam env.spamStore env.spamCacheFails env.sender env.spamWhitelisted
          false false env.spamCheckAdmins env.spamChecks env.now).1.isSpam = false →
        validateArguments cmd env.argsLen = true →
        env.execThrows = false →
        (handleCommand (some cmd) env).outcome = DispatchOutcome.executed) ∧
    (∀ (cmd : Command) (env : DispatchEnv) (user : UserRec) (g : GroupRec),
        env.user = some user → user.isBanned = false →
        env.group = some g → g.isBanned = false →
        cmd.permissions = ["owner", "admin"] →
        env.isGroupAdmin = false →
        env.ownerNumbers.contains user.jid = false →
        user.isPremium = false → env.isBotAdmin = false →
        (handleCommand (some cmd) env).outcome = DispatchOutcome.permissionDenied) := by
  refine ⟨?_, ?_, ?_⟩
  · intro owners cmd user group ga ba hne
    unfold checkPermissions
    rw [if_neg (by simpa [List.isEmpty_iff] using hne)]
    exact List.any_eq_true
  · intro cmd env user g hu hub hg hgb hperm hga hcat hcool hrl hspam hargs hexec
    have hpermOk : checkPermissions env.ownerNumbers cmd user env.group env.isGroupAdmin
        env.isBotAdmin = true := by
      unfold checkPermissions
      rw [if_neg (by simp [hperm])]
      simp [hperm, permMatches, hga]
    rw [hg] at hpermOk
    unfold handleCommand
    rw [hu]
    rcases hcc : checkCooldown env.cooldowns (some cmd) cmd.name env.sender env.now
      with ⟨res, cds⟩
    rw [hcc] at hcool
    simp only at hcool
    subst hcool
    simp [hub, hg, hgb, hpermOk, hcat, hcc, hrl, hspam, hargs, hexec]
  · intro cmd env user g hu hub hg hgb hperm hga hown hprem hba
    have hpermNo : checkPermissions env.ownerNumbers cmd user env.group env.isGroupAdmin
        env.isBotAdmin = false := by
      unfold checkPermissions
      rw [if_neg (by simp [hperm])]
      have hmem : user.jid ∉ env.ownerNumbers := by simpa using hown
      simp [hperm, permMatches, hga, hown, hprem, hg, hba, hmem]
    rw [hg] at hpermNo
    unfold handleCommand
    rw [hu]
    simp [hub, hg, hgb, hpermNo]

/-- Witness for C6: the `[owner, admin]` command runs for a plain group
admin and is denied for a subject with neither tag. -/
theorem permission_or_semantics_witness :
    (kickCmd.permissions ≠ [] ∧
     (checkPermissions [] kickCmd ⟨"u", false, false⟩ (some ⟨false⟩) true false = true ↔
       ∃ p ∈ kickCmd.permissions, permMatches [] ⟨"u", false, false⟩ (some ⟨false⟩) true false p = true)) ∧
    (handleCommand (some kickCmd) groupAdminEnv).outcome = DispatchOutcome.executed ∧
    (handleCommand (some kickCmd) groupPlainEnv).outcome = DispatchOutcome.permissionDenied :=
  ⟨⟨by decide, permission_or_semantics.1 [] kickCmd ⟨"u", false, false⟩ (some ⟨false⟩) true false (by decide)⟩,
   permission_or_semantics.2.1 kickCmd groupAdminEnv ⟨"u", false, false⟩ ⟨false⟩
     rfl rfl rfl rfl rfl rfl (by decide) (by decide) (by decide) (by decide) (by decide) rfl,
   permission_or_semantics.2.2 kickCmd groupPlainEnv ⟨"u", false, false⟩ ⟨false⟩
     rfl rfl rfl rfl rfl rfl (by decide) rfl rfl⟩

lemma dispatchAll_delays (qn : String) (ds : List String) :
    ∀ (l : List QMessage) (st : MQState),
      dispatchAll { st with delays := ds } qn l = { dispatchAll st qn l with delays := ds } := by
  intro l
  induction l with
  | nil => intro st; rfl
  | cons m ms ih =>
    intro st
    show dispatchAll _ qn ms = _
    exact ih { st with
      processingOf := setMap st.processingOf qn (insertId (st.processingOf qn) m.id),
      queueOf := setMap st.queueOf qn (bumpAttempts (st.queueOf qn) m.id),
      events := st.events ++ [QEvent.processingEv qn m.id (m.attempts + 1)] }

lemma dispatchAll_events (qn : String) :
    ∀ (l : List QMessage) (st : MQState),
      (dispatchAll st qn l).events =
        st.events ++ l.map (fun m => QEvent.processingEv qn m.id (m.attempts + 1)) := by
  intro l
  induction l with
  | nil => intro st; simp [dispatchAll]
  | cons m ms ih =>
    intro st
    show (dispatchAll _ qn ms).events = _
    rw [ih]
    simp

lemma processQueue_two (st : MQState) (qn : String) (A B : QMessage) (T : Int)
    (hqn : qn ∈ st.queues) (hq : st.queueOf qn = [A, B]) (hp : st.processingOf qn = [])
    (hA : A.scheduledFor ≤ T) (hB : B.scheduledFor ≤ T) :
    (processQueue st qn T).events =
      st.events ++ [QEvent.processingEv qn A.id (A.attempts + 1),
                    QEvent.processingEv qn B.id (B.attempts + 1)] := by
  unfold processQueue
  rw [if_pos hqn, hq, hp]
  rw [if_neg (by norm_num [maxConcurrent])]
  have hfA : (A.scheduledFor ≤ T && decide (A.id ∉ ([] : List Nat))) = true := by simp [hA]
  have hfB : (B.scheduledFor ≤ T && decide (B.id ∉ ([] : List Nat))) = true := by simp [hB]
  simp only [List.filter_cons, hfA, hfB, if_true, List.filter_nil, reduceIte]
  rw [dispatchAll_events]
  norm_num [maxConcurrent]

/-- C7: `processQueue` never consults the paused-queue set (`this.delays`)
that `pauseQueue` writes, so pausing does not suspend draining.  First
conjunct: the drain result is entirely independent of the `delays`
field.  Second conjunct, concrete failing run: after `pauseQueue("q")`,
adding a ready message (delay 0) to "q" dispatches it immediately —
the paused queue has the message in flight and a `message:processing`
event, while `delays` still marks "q" paused. -/
theorem pause_does_not_suspend_draining :
    (∀ (st : MQState) (qn : String) (now : Int) (ds : List String),
        processQueue { st with delays := ds } qn now =
          { processQueue st qn now with delays := ds }) ∧
    ((addMessage (pauseQueue initMQ "q") "q" ⟨0, 0, 3, 1⟩ 0).delays = ["q"] ∧
     (addMessage (pauseQueue initMQ "q") "q" ⟨0, 0, 3, 1⟩ 0).processingOf "q" = [1] ∧
     QEvent.processingEv "q" 1 1 ∈ (addMessage (pauseQueue initMQ "q") "q" ⟨0, 0, 3, 1⟩ 0).events) := by
  constructor
  · intro st qn now ds
    simp only [processQueue]
    split
    · split
      · rfl
      · exact dispatchAll_delays qn ds _ st
    · rfl
  · exact ⟨by decide, by decide, by decide⟩

/-- C5: two messages of the same queue with equal `scheduledFor` and
strictly ordered priorities end up priority-first in the queue list in
either enqueue order, the list is `qle`-sorted, and the drain loop
dispatches the higher-priority message first (its `message:processing`
event precedes the other's). -/
theorem queue_priority_order (qn : String) (ida idb : Nat) (pa pb : Int)
    (d now T : Int) (mra mrb : Nat)
    (hp : pb < pa) (hd : 0 < d) (hT : now + d ≤ T) :
    (addMessage (addMessage initMQ qn ⟨pa, d, mra, ida⟩ now) qn ⟨pb, d, mrb, idb⟩ now).queueOf qn =
      [⟨ida, pa, d, mra, 0, now, now + d⟩, ⟨idb, pb, d, mrb, 0, now, now + d⟩] ∧
    (addMessage (addMessage initMQ qn ⟨pb, d, mrb, idb⟩ now) qn ⟨pa, d, mra, ida⟩ now).queueOf qn =
      [⟨ida, pa, d, mra, 0, now, now + d⟩, ⟨idb, pb, d, mrb, 0, now, now + d⟩] ∧
    qle ⟨ida, pa, d, mra, 0, now, now + d⟩ ⟨idb, pb, d, mrb, 0, now, now + d⟩ = true ∧
    (processQueue (addMessage (addMessage initMQ qn ⟨pa, d, mra, ida⟩ now) qn ⟨pb, d, mrb, idb⟩ now) qn T).events =
      (addMessage (addMessage initMQ qn ⟨pa, d, mra, ida⟩ now) qn ⟨pb, d, mrb, idb⟩ now).events ++
        [QEvent.processingEv qn ida 1, QEvent.processingEv qn idb 1] ∧
    (processQueue (addMessage (addMessage initMQ qn ⟨pb, d, mrb, idb⟩ now) qn ⟨pa, d, mra, ida⟩ now) qn T).events =
      (addMessage (addMessage initMQ qn ⟨pb, d, mrb, idb⟩ now) qn ⟨pa, d, mra, ida⟩ now).events ++
        [QEvent.processingEv qn ida 1, QEvent.processingEv qn idb 1] := by
  have hnotready : ¬ (now + d ≤ now) := by omega
  have hq1 : qle ⟨ida, pa, d, mra, 0, now, now + d⟩ ⟨idb, pb, d, mrb, 0, now, now + d⟩ = true := by
    simp only [qle]
    rw [if_pos (by simpa using hp.ne')]
    exact decide_eq_true hp
  have hq2 : qle ⟨idb, pb, d, mrb, 0, now, now + d⟩ ⟨ida, pa, d, mra, 0, now, now + d⟩ = false := by
    simp only [qle]
    rw [if_pos (by simpa using hp.ne)]
    exact decide_eq_false (by omega)
  have hAB : (addMessage (addMessage initMQ qn ⟨pa, d, mra, ida⟩ now) qn ⟨pb, d, mrb, idb⟩ now).queueOf qn =
      [⟨ida, pa, d, mra, 0, now, now + d⟩, ⟨idb, pb, d, mrb, 0, now, now + d⟩] := by
    simp [addMessage, processQueue, dispatchAll, sortQueue, insertSorted, setMap, initMQ,
      List.filter_cons, hnotready, hq1, hq2]
  have hBA : (addMessage (addMessage initMQ qn ⟨pb, d, mrb, idb⟩ now) qn ⟨pa, d, mra, ida⟩ now).queueOf qn =
      [⟨ida, pa, d, mra, 0, now, now + d⟩, ⟨idb, pb, d, mrb, 0, now, now + d⟩] := by
    simp [addMessage, processQueue, dispatchAll, sortQueue, insertSorted, setMap, initMQ,
      List.filter_cons, hnotready, hq1, hq2]
  have hqsAB : (addMessage (addMessage initMQ qn ⟨pa, d, mra, ida⟩ now) qn ⟨pb, d, mrb, idb⟩ now).queues = [qn] := by
    simp [addMessage, processQueue, dispatchAll, sortQueue, insertSorted, setMap, initMQ,
      List.filter_cons, hnotready, hq1, hq2]
  have hqsBA : (addMessage (addMessage initMQ qn ⟨pb, d, mrb, idb⟩ now) qn ⟨pa, d, mra, ida⟩ now).queues = [qn] := by
    simp [addMessage, processQueue, dispatchAll, sortQueue, insertSorted, setMap, initMQ,
      List.filter_cons, hnotready, hq1, hq2]
  have hpAB : (addMessage (addMessage initMQ qn ⟨pa, d, mra, ida⟩ now) qn ⟨pb, d, mrb, idb⟩ now).processingOf qn = [] := by
    simp [addMessage, processQueue, dispatchAll, sortQueue, insertSorted, setMap, initMQ,
      List.filter_cons, hnotready, hq1, hq2]
  have hpBA : (addMessage (addMessage initMQ qn ⟨pb, d, mrb, idb⟩ now) qn ⟨pa, d, mra, ida⟩ now).processingOf qn = [] := by
    simp [addMessage, processQueue, dispatchAll, sortQueue, insertSorted, setMap, initMQ,
      List.filter_cons, hnotready, hq1, hq2]
  refine ⟨hAB, hBA, hq1, ?_, ?_⟩
  · exact processQueue_two _ qn _ _ T (by rw [hqsAB]; simp) hAB hpAB hT hT
  · exact processQueue_two _ qn _ _ T (by rw [hqsBA]; simp) hBA hpBA hT hT

/-- Witness for C5 at priorities 5 and 1, ids 1 and 2, delay 2,
enqueue time 0, drain time 10. -/
theorem queue_priority_order_witness :
    ((1 : Int) < 5 ∧ (0 : Int) < 2 ∧ (0 : Int) + 2 ≤ 10) ∧
    ((addMessage (addMessage initMQ "q" ⟨5, 2, 3, 1⟩ 0) "q" ⟨1, 2, 3, 2⟩ 0).queueOf "q" =
      [⟨1, 5, 2, 3, 0, 0, 0 + 2⟩, ⟨2, 1, 2, 3, 0, 0, 0 + 2⟩] ∧
     (addMessage (addMessage initMQ "q" ⟨1, 2, 3, 2⟩ 0) "q" ⟨5, 2, 3, 1⟩ 0).queueOf "q" =
      [⟨1, 5, 2, 3, 0, 0, 0 + 2⟩, ⟨2, 1, 2, 3, 0, 0, 0 + 2⟩] ∧
     qle ⟨1, 5, 2, 3, 0, 0, 0 + 2⟩ ⟨2, 1, 2, 3, 0, 0, 0 + 2⟩ = true ∧
     (processQueue (addMessage (addMessage initMQ "q" ⟨5, 2, 3, 1⟩ 0) "q" ⟨1, 2, 3, 2⟩ 0) "q" 10).events =
      (addMessage (addMessage initMQ "q" ⟨5, 2, 3, 1⟩ 0) "q" ⟨1, 2, 3, 2⟩ 0).events ++
        [QEvent.processingEv "q" 1 1, QEvent.processingEv "q" 2 1] ∧
     (processQueue (addMessage (addMessage initMQ "q" ⟨1, 2, 3, 2⟩ 0) "q" ⟨5, 2, 3, 1⟩ 0) "q" 10).events =
      (addMessage (addMessage initMQ "q" ⟨1, 2, 3, 2⟩ 0) "q" ⟨5, 2, 3, 1⟩ 0).events ++
        [QEvent.processingEv "q" 1 1, QEvent.processingEv "q" 2 1]) :=
  ⟨⟨by decide, by decide, by decide⟩,
   queue_priority_order "q" 1 2 5 1 2 0 10 3 3 (by decide) (by decide) (by decide)⟩

lemma failingDriver_empty (qn : String) (id : Nat) (st : MQState) (fuel : Nat)
    (hq : st.queueOf qn = []) : failingDriver qn id st fuel = st := by
  cases fuel with
  | zero => rfl
  | succ f =>
    show (match (st.queueOf qn).find? (fun m => m.id = id) with
      | none => st
      | some m => failingDriver qn id
          (applyFailure (processQueue st qn m.scheduledFor) qn id m.scheduledFor) f) = st
    rw [hq]
    rfl

lemma failingDriver_iter (qn : String) (id : Nat) (pr d cAt s : Int) (R k : Nat)
    (fuel : Nat) (st : MQState) (hqn : qn ∈ st.queues)
    (hq : st.queueOf qn = [⟨id, pr, d, R, k, cAt, s⟩])
    (hp : st.processingOf qn = []) :
    failingDriver qn id st (fuel + 1) =
      (if k + 1 < R then
        failingDriver qn id
          { st with
            queueOf := setMap st.queueOf qn [⟨id, pr, d, R, k + 1, cAt, s + d * (2 : Int) ^ k⟩],
            processingOf := setMap st.processingOf qn [],
            events := st.events ++ [.processingEv qn id (k + 1),
              .retryEv qn id (k + 1) (s + d * (2 : Int) ^ k)] } fuel
      else
        { st with
          queueOf := setMap st.queueOf qn [],
          processingOf := setMap st.processingOf qn [],
          events := st.events ++ [.processingEv qn id (k + 1), .failedEv qn id (k + 1)] }) := by
  have hfind : (st.queueOf qn).find? (fun m => m.id = id) = some ⟨id, pr, d, R, k, cAt, s⟩ := by
    rw [hq]; simp
  show (match (st.queueOf qn).find? (fun m => m.id = id) with
    | none => st
    | some m => failingDriver qn id
        (applyFailure (processQueue st qn m.scheduledFor) qn id m.scheduledFor) fuel) = _
  rw [hfind]
  have hpq : processQueue st qn s =
      { st with
        queueOf := setMap st.queueOf qn [⟨id, pr, d, R, k + 1, cAt, s⟩],
        processingOf := setMap st.processingOf qn [id],
        events := st.events ++ [.processingEv qn id (k + 1)] } := by
    unfold processQueue
    rw [if_pos hqn, hq, hp]
    rw [if_neg (by norm_num [maxConcurrent])]
    simp [dispatchAll, insertId, bumpAttempts, hq, hp, maxConcurrent]
  have hfind2 : List.find? (fun m => decide (m.id = id))
      [(⟨id, pr, d, R, k + 1, cAt, s⟩ : QMessage)] =
      some ⟨id, pr, d, R, k + 1, cAt, s⟩ := by simp
  have haf : applyFailure (processQueue st qn s) qn id s =
      (if k + 1 < R then
        { st with
          queueOf := setMap st.queueOf qn [⟨id, pr, d, R, k + 1, cAt, s + d * (2 : Int) ^ k⟩],
          processingOf := setMap st.processingOf qn [],
          events := st.events ++ [.processingEv qn id (k + 1),
            .retryEv qn id (k + 1) (s + d * (2 : Int) ^ k)] }
      else
        { st with
          queueOf := setMap st.queueOf qn [],
          processingOf := setMap st.processingOf qn [],
          events := st.events ++ [.processingEv qn id (k + 1), .failedEv qn id (k + 1)] }) := by
    rw [hpq]
    unfold applyFailure
    dsimp only
    rw [setMap_same, hfind2]
    unfold handleFailure
    dsimp only
    split
    · simp [sortQueue, insertSorted, setMap_setMap, setMap_same]
    · simp [setMap_setMap, setMap_same]
  dsimp only
  rw [haf]
  split
  · rfl
  · exact failingDriver_empty qn id _ fuel (by simp [setMap_same])

lemma failingDriver_spec (qn : String) (id : Nat) (pr d cAt : Int) (R : Nat) :
    ∀ (n k : Nat) (s : Int) (st : MQState) (fuel : Nat),
      R ≤ k + n → n < fuel →
      qn ∈ st.queues →
      st.queueOf qn = [⟨id, pr, d, R, k, cAt, s⟩] →
      st.processingOf qn = [] →
      (failingDriver qn id st fuel).queueOf qn = [] ∧
      (failingDriver qn id st fuel).processingOf qn = [] ∧
      (failingDriver qn id st fuel).events = st.events ++ failTrail qn id d R k s := by
  intro n
  induction n with
  | zero =>
    intro k s st fuel hR hf hqn hq hp
    obtain ⟨f, rfl⟩ : ∃ f, fuel = f + 1 := ⟨fuel - 1, by omega⟩
    rw [failingDriver_iter qn id pr d cAt s R k f st hqn hq hp]
    rw [if_neg (by omega)]
    rw [failTrail, if_neg (by omega)]
    exact ⟨by simp [setMap_same], by simp [setMap_same], by simp⟩
  | succ n ih =>
    intro k s st fuel hR hf hqn hq hp
    obtain ⟨f, rfl⟩ : ∃ f, fuel = f + 1 := ⟨fuel - 1, by omega⟩
    rw [failingDriver_iter qn id pr d cAt s R k f st hqn hq hp]
    by_cases hk : k + 1 < R
    · rw [if_pos hk]
      have hrec := ih (k + 1) (s + d * (2 : Int) ^ k)
        { st with
          queueOf := setMap st.queueOf qn [⟨id, pr, d, R, k + 1, cAt, s + d * (2 : Int) ^ k⟩],
          processingOf := setMap st.processingOf qn [],
          events := st.events ++ [.processingEv qn id (k + 1),
            .retryEv qn id (k + 1) (s + d * (2 : Int) ^ k)] }
        f (by omega) (by omega) hqn (by simp [setMap_same]) (by simp [setMap_same])
      refine ⟨hrec.1, hrec.2.1, ?_⟩
      rw [hrec.2.2]
      conv_rhs => rw [failTrail]
      rw [if_pos hk]
      simp
    · rw [if_neg hk]
      rw [failTrail, if_neg hk]
      exact ⟨by simp [setMap_same], by simp [setMap_same], by simp⟩

lemma failTrail_stats (qn : String) (id : Nat) (d : Int) (R : Nat) :
    ∀ (n k : Nat) (s : Int), R ≤ k + n →
      (failTrail qn id d R k s).countP isProcEv = max (R - k) 1 ∧
      (failTrail qn id d R k s).countP isFailedEv = 1 ∧
      (failTrail qn id d R k s).getLast? = some (.failedEv qn id (max R (k + 1))) := by
  intro n
  induction n with
  | zero =>
    intro k s hR
    rw [failTrail, if_neg (by omega)]
    refine ⟨?_, ?_, ?_⟩
    · simp [isProcEv, isFailedEv, List.countP_cons]
      omega
    · simp [isProcEv, isFailedEv, List.countP_cons]
    · simp
      omega
  | succ n ih =>
    intro k s hR
    by_cases hk : k + 1 < R
    · rw [failTrail, if_pos hk]
      have hrec := ih (k + 1) (s + d * (2 : Int) ^ k) (by omega)
      refine ⟨?_, ?_, ?_⟩
      · rw [List.countP_cons, List.countP_cons, hrec.1]
        simp [isProcEv]
        omega
      · rw [List.countP_cons, List.countP_cons, hrec.2.1]
        simp [isFailedEv]
      · have hne : failTrail qn id d R (k + 1) (s + d * (2 : Int) ^ k) ≠ [] := by
          rw [failTrail]
          split <;> simp
        obtain ⟨x, xs, hx⟩ := List.exists_cons_of_ne_nil hne
        rw [List.getLast?_cons_cons, hx, List.getLast?_cons_cons, ← hx, hrec.2.2]
        have hmax : R ⊔ (k + 1 + 1) = R ⊔ (k + 1) := by omega
        rw [hmax]
    · rw [failTrail, if_neg hk]
      refine ⟨?_, ?_, ?_⟩
      · simp [isProcEv, isFailedEv, List.countP_cons]
        omega
      · simp [isProcEv, isFailedEv, List.countP_cons]
      · simp
        omega

lemma failTrail_retry_sched (qn : String) (id : Nat) (d : Int) (R : Nat) :
    ∀ (m k : Nat) (s : Int) (n : Nat) (t : Int), R ≤ k + m →
      QEvent.retryEv qn id n t ∈ failTrail qn id d R k s →
      t = s + d * ((2 : Int) ^ n - (2 : Int) ^ k) ∧ k + 1 ≤ n ∧ n + 1 ≤ R := by
  intro m
  induction m with
  | zero =>
    intro k s n t hR hmem
    rw [failTrail, if_neg (by omega)] at hmem
    simp at hmem
  | succ m ih =>
    intro k s n t hR hmem
    by_cases hk : k + 1 < R
    · rw [failTrail, if_pos hk] at hmem
      rcases List.mem_cons.mp hmem with h | h
      · cases h
      rcases List.mem_cons.mp h with h2 | h2
      · have hn : n = k + 1 ∧ t = s + d * (2 : Int) ^ k := by
          cases h2
          exact ⟨rfl, rfl⟩
        obtain ⟨rfl, rfl⟩ := hn
        refine ⟨?_, by omega, by omega⟩
        have hpow : (2 : Int) ^ (k + 1) = 2 ^ k + 2 ^ k := by
          rw [pow_succ]
          ring
        rw [hpow]
        ring
      · have hrec := ih (k + 1) (s + d * (2 : Int) ^ k) n t (by omega) h2
        refine ⟨?_, by omega, hrec.2.2⟩
        rw [hrec.1]
        have hpow : (2 : Int) ^ (k + 1) = 2 ^ k + 2 ^ k := by
          rw [pow_succ]
          ring
        rw [hpow]
        ring
    · rw [failTrail, if_neg hk] at hmem
      simp at hmem

/-- C4 (amended): an always-failing message is attempted exactly
`max maxRetries 1` times (the first attempt is unconditional, so a
message with `maxRetries = 0` is still attempted once); exactly one
`message:failed` event is emitted, as the final event, after which the
message is gone from the queue; every `message:retry` schedules attempt
`n + 1` at `attemptTime (now + d) d (n + 1)`, so the delay before
attempt `n ≥ 2` is `d * 2 ^ (n - 2)`, which is nondecreasing in `n`. -/
theorem retry_backoff_failing_message (qn : String) (id : Nat) (pr d now : Int) (R : Nat)
    (hd : 0 < d) :
    (failingRun qn id pr d now R).queueOf qn = [] ∧
    (failingRun qn id pr d now R).events =
      QEvent.queuedEv qn id :: failTrail qn id d R 0 (now + d) ∧
    (failingRun qn id pr d now R).events.countP isProcEv = max R 1 ∧
    (failingRun qn id pr d now R).events.countP isFailedEv = 1 ∧
    (failingRun qn id pr d now R).events.getLast? = some (.failedEv qn id (max R 1)) ∧
    (∀ (n : Nat) (t : Int), QEvent.retryEv qn id n t ∈ (failingRun qn id pr d now R).events →
      t = attemptTime (now + d) d (n + 1) ∧ 1 ≤ n ∧ n + 1 ≤ R) ∧
    (∀ n : Nat, 1 ≤ n →
      attemptTime (now + d) d (n + 1) - attemptTime (now + d) d n = backoffBefore d (n + 1)) ∧
    (∀ n : Nat, backoffBefore d (n + 1) ≤ backoffBefore d (n + 2)) := by
  have hnr : ¬ (now + d ≤ now) := by omega
  have hqs : (addMessage initMQ qn ⟨pr, d, R, id⟩ now).queues = [qn] := by
    simp [addMessage, processQueue, dispatchAll, sortQueue, insertSorted, setMap, initMQ, hnr]
  have hQ : (addMessage initMQ qn ⟨pr, d, R, id⟩ now).queueOf qn =
      [⟨id, pr, d, R, 0, now, now + d⟩] := by
    simp [addMessage, processQueue, dispatchAll, sortQueue, insertSorted, setMap, initMQ, hnr]
  have hP : (addMessage initMQ qn ⟨pr, d, R, id⟩ now).processingOf qn = [] := by
    simp [addMessage, processQueue, dispatchAll, sortQueue, insertSorted, setMap, initMQ, hnr]
  have hE : (addMessage initMQ qn ⟨pr, d, R, id⟩ now).events = [QEvent.queuedEv qn id] := by
    simp [addMessage, processQueue, dispatchAll, sortQueue, insertSorted, setMap, initMQ, hnr]
  have hspec := failingDriver_spec qn id pr d now R R 0 (now + d)
    (addMessage initMQ qn ⟨pr, d, R, id⟩ now) (R + 1)
    (by omega) (by omega) (by rw [hqs]; simp) hQ hP
  have hev : (failingRun qn id pr d now R).events =
      QEvent.queuedEv qn id :: failTrail qn id d R 0 (now + d) := by
    show (failingDriver qn id (addMessage initMQ qn ⟨pr, d, R, id⟩ now) (R + 1)).events = _
    rw [hspec.2.2, hE]
    rfl
  have hstats := failTrail_stats qn id d R R 0 (now + d) (by omega)
  have htne : failTrail qn id d R 0 (now + d) ≠ [] := by
    rw [failTrail]
    split <;> simp
  refine ⟨hspec.1, hev, ?_, ?_, ?_, ?_, ?_, ?_⟩
  · rw [hev, List.countP_cons]
    simp only [isProcEv, Bool.false_eq_true, if_false]
    rw [hstats.1]
    simp
  · rw [hev, List.countP_cons]
    simp only [isFailedEv, Bool.false_eq_true, if_false]
    rw [hstats.2.1]
  · rw [hev]
    obtain ⟨x, xs, hx⟩ := List.exists_cons_of_ne_nil htne
    rw [hx, List.getLast?_cons_cons, ← hx, hstats.2.2]
  · intro n t hmem
    rw [hev] at hmem
    rcases List.mem_cons.mp hmem with h | h
    · cases h
    · have hr := failTrail_retry_sched qn id d R R 0 (now + d) n t (by omega) h
      refine ⟨?_, by omega, hr.2.2⟩
      rw [hr.1]
      unfold attemptTime
      simp
  · intro n hn
    obtain ⟨m, rfl⟩ : ∃ m, n = m + 1 := ⟨n - 1, by omega⟩
    unfold attemptTime backoffBefore
    simp only [Nat.add_sub_cancel]
    rw [if_neg (by omega)]
    rw [show m + 1 + 1 - 2 = m from by omega]
    rw [show (2 : Int) ^ (m + 1) = 2 ^ m * 2 from by rw [pow_succ]]
    ring
  · intro n
    unfold backoffBefore
    cases n with
    | zero => simp
    | succ m =>
      rw [if_neg (by omega), if_neg (by omega)]
      simp only [Nat.add_sub_cancel]
      have h1 : (2 : Int) ^ ((m + 1) - 1) ≤ 2 ^ ((m + 2) - 1) := by
        apply pow_le_pow_right
        · omega
        · omega
      have hd2 : (0 : Int) ≤ d := by omega
      calc d * (2 : Int) ^ ((m + 1) - 1) ≤ d * 2 ^ ((m + 2) - 1) :=
            mul_le_mul_of_nonneg_left h1 hd2
        _ = d * 2 ^ ((m + 2) - 1) := rfl

/-- C4 counterexample for the claim as stated: with `maxRetries = 0`
the message is attempted once, not zero times. -/
theorem retry_zero_attempted_once :
    (failingRun "q" 1 0 1000 0 0).events.countP isProcEv = 1 ∧ (1 : Nat) ≠ 0 :=
  ⟨by decide, by decide⟩

/-- Witness for C4's amended statement at `maxRetries = 3`,
`delay = 1000`, enqueue at 0. -/
theorem retry_backoff_failing_message_witness :
    (0 : Int) < 1000 ∧
    ((failingRun "q" 1 0 1000 0 3).queueOf "q" = [] ∧
     (failingRun "q" 1 0 1000 0 3).events =
       QEvent.queuedEv "q" 1 :: failTrail "q" 1 1000 3 0 (0 + 1000) ∧
     (failingRun "q" 1 0 1000 0 3).events.countP isProcEv = max 3 1 ∧
     (failingRun "q" 1 0 1000 0 3).events.countP isFailedEv = 1 ∧
     (failingRun "q" 1 0 1000 0 3).events.getLast? = some (.failedEv "q" 1 (max 3 1)) ∧
     (∀ (n : Nat) (t : Int), QEvent.retryEv "q" 1 n t ∈ (failingRun "q" 1 0 1000 0 3).events →
       t = attemptTime (0 + 1000) 1000 (n + 1) ∧ 1 ≤ n ∧ n + 1 ≤ 3) ∧
     (∀ n : Nat, 1 ≤ n →
       attemptTime (0 + 1000) 1000 (n + 1) - attemptTime (0 + 1000) 1000 n = backoffBefore 1000 (n + 1)) ∧
     (∀ n : Nat, backoffBefore 1000 (n + 1) ≤ backoffBefore 1000 (n + 2))) :=
  ⟨by decide, retry_backoff_failing_message "q" 1 0 1000 0 3 (by decide)⟩

lemma insertId_length_le (p : List Nat) (x : Nat) :
    (insertId p x).length ≤ p.length + 1 := by
  unfold insertId
  split <;> simp

lemma insertId_length_ge (p : List Nat) (x : Nat) :
    p.length ≤ (insertId p x).length := by
  unfold insertId
  split <;> simp

lemma dispatchAll_processing (qn : String) :
    ∀ (l : List QMessage) (st : MQState) (q2 : String),
      ((dispatchAll st qn l).processingOf q2).length ≤ (st.processingOf q2).length + l.length ∧
      (st.processingOf q2).length ≤ ((dispatchAll st qn l).processingOf q2).length ∧
      (q2 ≠ qn → (dispatchAll st qn l).processingOf q2 = st.processingOf q2) := by
  intro l
  induction l with
  | nil => intro st q2; exact ⟨by simp [dispatchAll], by simp [dispatchAll], fun _ => rfl⟩
  | cons m ms ih =>
    intro st q2
    have hstep := ih { st with
      processingOf := setMap st.processingOf qn (insertId (st.processingOf qn) m.id),
      queueOf := setMap st.queueOf qn (bumpAttempts (st.queueOf qn) m.id),
      events := st.events ++ [QEvent.processingEv qn m.id (m.attempts + 1)] } q2
    dsimp only at hstep
    simp only [dispatchAll]
    by_cases hq : q2 = qn
    · subst hq
      rw [setMap_same] at hstep
      have hle := insertId_length_le (st.processingOf q2) m.id
      have hge := insertId_length_ge (st.processingOf q2) m.id
      exact ⟨by simp only [List.length_cons]; omega, by omega, fun hcon => absurd rfl hcon⟩
    · rw [setMap_other _ _ _ _ hq] at hstep
      exact ⟨by simp only [List.length_cons]; omega, by omega, fun _ => hstep.2.2 hq⟩

lemma addMessage_processing_step (st : MQState) (qn : String) (o : AddOpts) (now : Int) :
    ∃ st1 : MQState, addMessage st qn o now = processQueue st1 qn now ∧
      st1.processingOf = st.processingOf := by
  unfold addMessage
  refine ⟨_, rfl, ?_⟩
  split <;> rfl

lemma processQueue_processing_le (st : MQState) (qn : String) (now : Int) (q2 : String)
    (h : (st.processingOf q2).length ≤ maxConcurrent) :
    ((processQueue st qn now).processingOf q2).length ≤ maxConcurrent := by
  simp only [processQueue]
  split
  · split
    · exact h
    · rename_i hfull
      by_cases hq : q2 = qn
      · subst hq
        have hb := (dispatchAll_processing q2
          (((st.queueOf q2).filter fun m =>
            m.scheduledFor ≤ now && decide (m.id ∉ st.processingOf q2)).take
            (maxConcurrent - (st.processingOf q2).length)) st q2).1
        have htake := List.length_take_le (maxConcurrent - (st.processingOf q2).length)
          ((st.queueOf q2).filter fun m => m.scheduledFor ≤ now && decide (m.id ∉ st.processingOf q2))
        omega
      · rw [(dispatchAll_processing qn
          (((st.queueOf qn).filter fun m =>
            m.scheduledFor ≤ now && decide (m.id ∉ st.processingOf qn)).take
            (maxConcurrent - (st.processingOf qn).length)) st q2).2.2 hq]
        exact h
  · exact h

lemma processQueue_processing_ge (st : MQState) (qn : String) (now : Int) (q2 : String) :
    (st.processingOf q2).length ≤ ((processQueue st qn now).processingOf q2).length := by
  simp only [processQueue]
  split
  · split
    · exact le_refl _
    · exact (dispatchAll_processing qn _ st q2).2.1
  · exact le_refl _

lemma applyOp_processing_le (st : MQState) (op : MQOp) (q2 : String)
    (h : ∀ q, (st.processingOf q).length ≤ maxConcurrent) :
    ((applyOp st op).processingOf q2).length ≤ maxConcurrent := by
  cases op with
  | add qn o now =>
    show ((addMessage st qn o now).processingOf q2).length ≤ maxConcurrent
    obtain ⟨st1, heq, hproc⟩ := addMessage_processing_step st qn o now
    rw [heq]
    exact processQueue_processing_le st1 qn now q2 (by rw [hproc]; exact h q2)
  | drain qn now => exact processQueue_processing_le st qn now q2 (h q2)
  | succeed qn id =>
    show ((handleSuccess st qn id).processingOf q2).length ≤ maxConcurrent
    unfold handleSuccess
    dsimp only
    by_cases hq : q2 = qn
    · subst hq
      rw [setMap_same]
      have := List.length_filter_le (fun x => x ≠ id) (st.processingOf q2)
      exact le_trans this (h q2)
    · rw [setMap_other _ _ _ _ hq]
      exact h q2
  | fail qn id now =>
    show ((applyFailure st qn id now).processingOf q2).length ≤ maxConcurrent
    unfold applyFailure
    split
    · unfold handleFailure
      dsimp only
      by_cases hq : q2 = qn
      · subst hq
        split <;> (dsimp only; rw [setMap_same]; exact le_trans (List.length_filter_le _ _) (h q2))
      · split <;> (dsimp only; rw [setMap_other _ _ _ _ hq]; exact h q2)
    · exact h q2
  | remove qn id =>
    show ((removeMessage st qn id).processingOf q2).length ≤ maxConcurrent
    unfold removeMessage
    split <;> exact h q2
  | clear qn =>
    show ((clearQueue st qn).processingOf q2).length ≤ maxConcurrent
    unfold clearQueue
    split <;> exact h q2
  | pause qn => exact h q2
  | resume qn now =>
    show ((resumeQueue st qn now).processingOf q2).length ≤ maxConcurrent
    unfold resumeQueue
    exact processQueue_processing_le
      { st with delays := st.delays.filter (· ≠ qn),
                events := st.events ++ [QEvent.resumedEv qn] } qn now q2 (h q2)
  | restore qn saved now =>
    show ((restoreQueue st qn saved now).processingOf q2).length ≤ maxConcurrent
    unfold restoreQueue
    cases saved with
    | none => exact h q2
    | some savedQueue =>
      refine processQueue_processing_le
        { st with
          queues := if qn ∈ st.queues then st.queues else qn :: st.queues,
          queueOf := setMap st.queueOf qn savedQueue,
          processingOf := setMap st.processingOf qn [] } qn now q2 ?_
      dsimp only
      by_cases hq : q2 = qn
      · subst hq
        rw [setMap_same]
        simp [maxConcurrent]
      · rw [setMap_other _ _ _ _ hq]
        exact h q2

lemma applyOp_processing_ge_of_not_completion (st : MQState) (op : MQOp) (q2 : String)
    (hop : (∀ q i, op ≠ MQOp.succeed q i) ∧ (∀ q i n, op ≠ MQOp.fail q i n) ∧
      (∀ q sv n, op ≠ MQOp.restore q sv n)) :
    (st.processingOf q2).length ≤ ((applyOp st op).processingOf q2).length := by
  cases op with
  | add qn o now =>
    show _ ≤ ((addMessage st qn o now).processingOf q2).length
    obtain ⟨st1, heq, hproc⟩ := addMessage_processing_step st qn o now
    rw [heq]
    have hge := processQueue_processing_ge st1 qn now q2
    rw [hproc] at hge
    exact hge
  | drain qn now => exact processQueue_processing_ge st qn now q2
  | succeed qn id => exact absurd rfl (hop.1 qn id)
  | fail qn id now => exact absurd rfl (hop.2.1 qn id now)
  | restore qn saved now => exact absurd rfl (hop.2.2 qn saved now)
  | remove qn id =>
    show _ ≤ ((removeMessage st qn id).processingOf q2).length
    unfold removeMessage
    split <;> exact le_refl _
  | clear qn =>
    show _ ≤ ((clearQueue st qn).processingOf q2).length
    unfold clearQueue
    split <;> exact le_refl _
  | pause qn => exact le_refl _
  | resume qn now =>
    show _ ≤ ((resumeQueue st qn now).processingOf q2).length
    unfold resumeQueue
    exact processQueue_processing_ge
      { st with delays := st.delays.filter (· ≠ qn),
                events := st.events ++ [QEvent.resumedEv qn] } qn now q2

lemma runOps_processing_aux :
    ∀ (ops : List MQOp) (st : MQState),
      (∀ q, (st.processingOf q).length ≤ maxConcurrent) →
      ∀ q, ((ops.foldl applyOp st).processingOf q).length ≤ maxConcurrent := by
  intro ops
  induction ops with
  | nil => intro st h q; exact h q
  | cons op rest ih =>
    intro st h q
    exact ih (applyOp st op) (fun q2 => applyOp_processing_le st op q2 h) q

/-- C9 counterexample for the claim as stated: `handleSuccess` and
`handleFailure` are NOT the only transitions that decrement an
in-flight set — the public `restoreQueue` (a cache hit; a stored empty
array is truthy) wipes the restored queue's one in-flight id, and the
transition is neither a `succeed` nor a `fail` completion. -/
theorem restore_resets_inflight :
    ((applyOp oneInflight (MQOp.restore "q" (some []) 0)).processingOf "q").length <
      (oneInflight.processingOf "q").length ∧
    (∀ q i, MQOp.restore "q" (some ([] : List QMessage)) 0 ≠ MQOp.succeed q i) ∧
    (∀ q i n, MQOp.restore "q" (some ([] : List QMessage)) 0 ≠ MQOp.fail q i n) := by
  refine ⟨by decide, ?_, ?_⟩
  · intro q i h
    cases h
  · intro q i n h
    cases h

/-- C9 (amended): in every reachable `MessageQueue` state the per-queue
in-flight set stays within `maxConcurrent` (= 5); a single drain adds
at most `maxConcurrent` minus the current in-flight count dispatch
events; and the only transitions that shrink an in-flight set are the
completions (`handleSuccess` via `succeed`, `handleFailure` via `fail`)
and `restoreQueue`, which resets the restored queue's in-flight set to
empty. -/
theorem inflight_bounded_by_maxConcurrent :
    (∀ (ops : List MQOp) (qn : String),
      ((runOps ops).processingOf qn).length ≤ maxConcurrent) ∧
    (∀ (st : MQState) (qn : String) (now : Int),
      (processQueue st qn now).events.length ≤
        st.events.length + (maxConcurrent - (st.processingOf qn).length)) ∧
    (∀ (st : MQState) (op : MQOp) (qn : String),
      ((applyOp st op).processingOf qn).length < (st.processingOf qn).length →
      (∃ q i, op = MQOp.succeed q i) ∨ (∃ q i n, op = MQOp.fail q i n) ∨
      (∃ q sv n, op = MQOp.restore q sv n)) := by
  refine ⟨?_, ?_, ?_⟩
  · intro ops qn
    exact runOps_processing_aux ops initMQ (fun _ => by simp [initMQ, maxConcurrent]) qn
  · intro st qn now
    simp only [processQueue]
    split
    · split
      · omega
      · rw [dispatchAll_events]
        rename_i hfull
        have htake := List.length_take_le (maxConcurrent - (st.processingOf qn).length)
          ((st.queueOf qn).filter fun m => m.scheduledFor ≤ now && decide (m.id ∉ st.processingOf qn))
        simp only [List.length_append, List.length_map]
        omega
    · omega
  · intro st op qn hlt
    by_cases hs : (∃ q i, op = MQOp.succeed q i) ∨ (∃ q i n, op = MQOp.fail q i n) ∨
      (∃ q sv n, op = MQOp.restore q sv n)
    · exact hs
    · push_neg at hs
      have := applyOp_processing_ge_of_not_completion st op qn
        ⟨fun q i => hs.1 q i, fun q i n => hs.2.1 q i n, fun q sv n => hs.2.2 q sv n⟩
      omega

/-- Witness for C9's decrement conjunct: completing the only in-flight
message of "q" shrinks the in-flight set, and the operation is indeed a
completion. -/
theorem inflight_bounded_by_maxConcurrent_witness :
    ((applyOp oneInflight (MQOp.succeed "q" 1)).processingOf "q").length <
      (oneInflight.processingOf "q").length ∧
    ((∃ q i, MQOp.succeed "q" 1 = MQOp.succeed q i) ∨
     (∃ q i n, MQOp.succeed "q" 1 = MQOp.fail q i n) ∨
     (∃ q sv n, MQOp.succeed "q" 1 = MQOp.restore q sv n)) :=
  ⟨by decide,
   inflight_bounded_by_maxConcurrent.2.2 oneInflight (MQOp.succeed "q" 1) "q" (by decide)⟩

end Ilom

